import Mathlib

set_option linter.unusedVariables false

/-! Shallow embedding of the core of the nylas sync engine
    (inbox-server/inbox/server/sync.py) and of the Gmail OAuth token
    machinery (inbox/models/backends/gmail.py), together with theorems
    checking the natural-language specification against the code. -/

/-! ## Part 1: Gmail token machinery (inbox/models/backends/gmail.py) -/

/-- Outcome of one call to auth_handler.new_token for a given credential.
    The auth handler is an external collaborator; each credential carries
    the outcome its refresh attempt would produce. -/
inductive RefreshOutcome where
  | success (token : String) (expiresIn : Int)
  | oauthError
  | otherError (code : Nat)
deriving DecidableEq

/-- A GmailAuthCredentials row: id, scopes, is_valid flag, and the outcome
    of refreshing it. -/
structure AuthCreds where
  id : Nat
  scopes : List String
  is_valid : Bool
  refresh : RefreshOutcome
deriving DecidableEq

/-- The GToken namedtuple from gmail.py. -/
structure GToken where
  value : String
  expiration : Int
  scopes : List String
  auth_creds_id : Nat
deriving DecidableEq

/-- Errors new_token can raise: OAuthError when no valid tokens exist, or
    the last non-OAuth exception re-raised. -/
inductive TokenErr where
  | oauthNoValid
  | nonOAuth (code : Nat)
deriving DecidableEq

def RefreshOutcome.isSuccess : RefreshOutcome → Bool
  | .success _ _ => true
  | _ => false

def RefreshOutcome.isOauthError : RefreshOutcome → Bool
  | .oauthError => true
  | _ => false

/-- The GToken built from a successfully refreshed credential: expiration is
    utcnow + (expires_in - 10) seconds. -/
def mkGToken (now : Int) (c : AuthCreds) : GToken :=
  match c.refresh with
  | .success t e => ⟨t, now + (e - 10), c.scopes, c.id⟩
  | _ => ⟨"", 0, [], 0⟩

/-- Loop body of GmailAccount.new_token: iterate over the credentials,
    tracking the last non-OAuth exception and the ids marked invalid. -/
def newTokenGo (now : Int) (scope : String) :
    List AuthCreds → Option Nat → List Nat → Except TokenErr GToken × List Nat
  | [], none, marked => (.error .oauthNoValid, marked)
  | [], some e, marked => (.error (.nonOAuth e), marked)
  | c :: rest, nonOauth, marked =>
    if scope ∈ c.scopes then
      match c.refresh with
      | .success t e => (.ok ⟨t, now + (e - 10), c.scopes, c.id⟩, marked)
      | .oauthError => newTokenGo now scope rest nonOauth (marked ++ [c.id])
      | .otherError code => newTokenGo now scope rest (some code) marked
    else newTokenGo now scope rest nonOauth marked

/-- GmailAccount.new_token: iterates over valid_auth_credentials (the
    credentials with is_valid set), trying each credential covering the
    scope; OAuth failures mark the credential invalid, other exceptions are
    remembered and the last one re-raised if nothing succeeds.  Returns the
    token result together with the list of credential ids whose is_valid
    flag was set to False. -/
def new_token (now : Int) (creds : List AuthCreds) (scope : String) :
    Except TokenErr GToken × List Nat :=
  newTokenGo now scope (creds.filter (fun c => c.is_valid)) none []

/-- Specification helper: the valid credentials covering the scope, in
    order. -/
def covering_creds (creds : List AuthCreds) (scope : String) : List AuthCreds :=
  (creds.filter (fun c => c.is_valid)).filter (fun c => decide (scope ∈ c.scopes))

/-- Specification helper: the covering credentials actually refreshed before
    the first success (all of them when none succeeds). -/
def tried_creds (creds : List AuthCreds) (scope : String) : List AuthCreds :=
  (covering_creds creds scope).takeWhile (fun c => !c.refresh.isSuccess)

/-- Specification helper: the last non-OAuth error code produced among a
    list of refreshed credentials, starting from a previous value. -/
def lastOtherFrom (init : Option Nat) (l : List AuthCreds) : Option Nat :=
  l.foldl (fun acc c =>
    match c.refresh with
    | .otherError e => some e
    | _ => acc) init

def last_other_error (l : List AuthCreds) : Option Nat :=
  lastOtherFrom none l

/-- The token cache of GTokenManager: _tokens[account_id][scope]. -/
abbrev GTokenCacheMap := List ((Nat × String) × GToken)

def cacheLookupG (m : GTokenCacheMap) (aid : Nat) (scope : String) : Option GToken :=
  (m.find? (fun e => e.1 == (aid, scope))).map (fun e => e.2)

/-- GTokenManager.cache_token: store the token under every scope it
    carries. -/
def cache_token (m : GTokenCacheMap) (aid : Nat) (g : GToken) : GTokenCacheMap :=
  g.scopes.foldl (fun acc s => ((aid, s), g) :: acc) m

/-- A Gmail account as seen by the token manager: id plus its credential
    rows. -/
structure GmailAccountM where
  id : Nat
  creds : List AuthCreds

/-- GTokenManager._get_token: serve from cache when not force_refresh and
    the cached token has not expired; otherwise refresh via
    account.new_token and cache the result. -/
def get_token_aux (now : Int) (m : GTokenCacheMap) (acct : GmailAccountM)
    (scope : String) (force_refresh : Bool) : Except TokenErr (GToken × GTokenCacheMap) :=
  let cached : Option GToken :=
    if force_refresh then none
    else
      match cacheLookupG m acct.id scope with
      | some g => if now < g.expiration then some g else none
      | none => none
  match cached with
  | some g => .ok (g, m)
  | none =>
    match (new_token now acct.creds scope).1 with
    | .error e => .error e
    | .ok g => .ok (g, cache_token m acct.id g)

/-- GTokenManager.get_token: returns the token value. -/
def get_token (now : Int) (m : GTokenCacheMap) (acct : GmailAccountM)
    (scope : String) (force_refresh : Bool) : Except TokenErr (String × GTokenCacheMap) :=
  (get_token_aux now m acct scope force_refresh).map (fun r => (r.1.value, r.2))

/-! ## Part 2: sync engine data model (inbox-server/inbox/server/sync.py) -/

/-- Gmail per-UID metadata entry: X-GM-MSGID and X-GM-THRID. -/
structure GMeta where
  msgid : Nat
  thrid : Nat
deriving DecidableEq

/-- A FolderItem row: binding of a UID in a folder to a message, with
    flags (flags and labels collapsed into one abstract value). -/
structure FolderItem where
  folder : String
  uid : Nat
  msgid : Nat
  flags : Nat
deriving DecidableEq

/-- A Thread row, keyed per account by the provider thread id; msgids
    records the messages folded into the thread. -/
structure Thread where
  thrid : Nat
  msgids : List Nat
deriving DecidableEq

/-- A just-fetched message as handed to the ThreadDetector. -/
structure Msg where
  msgid : Nat
  g_thrid : Nat
deriving DecidableEq

/-- The per-account slice of the MetadataStore that sync.py touches:
    FolderItem rows, Message rows (by X-GM-MSGID), UIDValidity checkpoints
    (folder, uidvalidity, highestmodseq) and Thread rows. -/
structure DB where
  folderItems : List FolderItem
  messages : List Nat
  validity : List (String × Nat × Nat)
  threads : List Thread
deriving DecidableEq

/-- IMAPAccount as used by sync.py and the SyncService. -/
structure Account where
  id : Nat
  email : String
  provider : String
  sync_host : Option String
  sync_active : Bool
deriving DecidableEq

/-- The remote state of one folder as served by the crispin client
    (external collaborator, modelled from the spec contract):
    UIDVALIDITY, HIGHESTMODSEQ, the map UID to Gmail metadata (all_uids is
    its key set), per-UID flags, per-UID message part payload keys (only
    parts carrying _data, the ones save is called on), and the
    new-or-updated UID query for a given MODSEQ. -/
structure FolderRemote where
  uidvalidity : Nat
  highestmodseq : Nat
  meta : List (Nat × GMeta)
  flagOf : Nat → Nat
  partsOf : Nat → List Nat
  newAndUpdated : Nat → List Nat

/-- The crispin client: remote folders, the Gmail All Mail folder name,
    the pollable folder set and CHUNK_SIZE. -/
structure Crispin where
  folders : List (String × FolderRemote)
  allFolder : String
  pollFolders : List String
  chunkSize : Nat

def folderRemote (cr : Crispin) (name : String) : Option FolderRemote :=
  (cr.folders.find? (fun e => e.1 == name)).map (fun e => e.2)

/-- account.all_uids: the UIDs with a FolderItem row in the folder. -/
def DB.allUids (db : DB) (folder : String) : List Nat :=
  (db.folderItems.filter (fun fi => fi.folder == folder)).map (fun fi => fi.uid)

/-- account.get_uidvalidity: the cached UIDValidity row for the folder. -/
def DB.getValidity (db : DB) (folder : String) : Option (Nat × Nat) :=
  (db.validity.find? (fun e => e.1 == folder)).map (fun e => (e.2.1, e.2.2))

/-- Modelled from the spec: account.uidvalidity_valid (not under src/)
    compares the just-negotiated UIDVALIDITY against the cached checkpoint;
    uidvalidity_callback raises UIDInvalid when a checkpoint exists and the
    two disagree. -/
def uidvalidityCallbackOk (db : DB) (folder : String) (remoteValidity : Nat) : Bool :=
  match db.getValidity folder with
  | some cv => remoteValidity == cv.1
  | none => true

/-- Lookup of one UID in a metadata map (Python dict indexing). -/
def lookupMeta (meta : List (Nat × GMeta)) (u : Nat) : GMeta :=
  ((meta.find? (fun e => e.1 == u)).map (fun e => e.2)).getD ⟨0, 0⟩

/-- Exceptions of the sync engine. -/
inductive Exn where
  | uidInvalid
  | notImplemented
  | syncFatal
  | missing
deriving DecidableEq

/-- Insertion sort on Nat, used to model Python sorted(..., key=int). -/
def insertSorted (x : Nat) : List Nat → List Nat
  | [] => [x]
  | y :: ys => if x ≤ y then x :: y :: ys else y :: insertSorted x ys

def sortNat (l : List Nat) : List Nat := l.foldr insertSorted []

def sortNatDesc (l : List Nat) : List Nat := (sortNat l).reverse

/-- The chunk utility from inbox.util.itert: split a list into chunks of
    size n.  Modelled from the spec: itert is not under src/; chunk
    partitions its input into consecutive runs of the requested size. -/
def chunkList (n : Nat) : List α → List (List α)
  | [] => []
  | x :: xs =>
    if hn : n = 0 then [x :: xs]
    else (x :: xs).take n :: chunkList n ((x :: xs).drop n)
termination_by l => l.length
decreasing_by
  simp only [List.length_drop, List.length_cons]
  omega

/-! ## Part 3: ThreadDetector -/

/-- The in-memory state of the per-account ThreadDetector: the batch-local
    cache (the provider thread ids cached so far in the current batch; the
    cached ORM objects are the Thread rows with those ids) and the Thread
    table. -/
structure TDState where
  cache : List Nat
  store : List Thread
deriving DecidableEq

/-- Modelled from the spec: Thread.update_from_message (not under src/)
    folds a message into an existing Thread row. -/
def updateThreadStore (store : List Thread) (m : Msg) : List Thread :=
  store.map (fun t =>
    if t.thrid == m.g_thrid then { t with msgids := t.msgids ++ [m.msgid] } else t)

/-- Modelled from the spec: Thread.from_message (not under src/) creates or
    loads a Thread keyed by (account, provider_thrid) via the
    MetadataStore and folds the message in. -/
def threadFromMessage (store : List Thread) (m : Msg) : List Thread :=
  if store.any (fun t => t.thrid == m.g_thrid) then updateThreadStore store m
  else store ++ [⟨m.g_thrid, [m.msgid]⟩]

/-- One message of a batch in ThreadDetector._run: a cache hit updates the
    cached Thread via update_from_message, otherwise the Thread is
    created or loaded and cached. -/
def processMsg (st : TDState) (m : Msg) : TDState :=
  if m.g_thrid ∈ st.cache then { st with store := updateThreadStore st.store m }
  else { cache := st.cache ++ [m.g_thrid], store := threadFromMessage st.store m }

/-- One batch in ThreadDetector._run: process every message, then
    clear_cache and fire the completion event (the Bool). -/
def processBatch (st : TDState) (msgs : List Msg) : TDState × Bool :=
  let stepped := msgs.foldl processMsg st
  ({ stepped with cache := [] }, true)

/-- A sequence of batches through the single ThreadDetector, returning the
    final state and the fired completion events. -/
def processBatches (st : TDState) : List (List Msg) → TDState × List Bool
  | [] => (st, [])
  | b :: rest =>
    let r := processBatch st b
    let r2 := processBatches r.1 rest
    (r2.1, r.2 :: r2.2)

/-- At most one Thread row per provider thread id. -/
def threadsUnique (store : List Thread) : Prop :=
  (store.map (fun t => t.thrid)).Nodup

/-! ## Part 4: MetaCache keys and operations -/

/-- The MetaCache: a string-keyed store of remote_g_metadata maps. -/
abbrev CacheMap := List (String × List (Nat × GMeta))

def getCache (c : CacheMap) (k : String) : Option (List (Nat × GMeta)) :=
  (c.find? (fun e => e.1 == k)).map (fun e => e.2)

def setCache (c : CacheMap) (k : String) (v : List (Nat × GMeta)) : CacheMap :=
  (k, v) :: c.filter (fun e => !(e.1 == k))

def rmCache (c : CacheMap) (k : String) : CacheMap :=
  c.filter (fun e => !(e.1 == k))

/-- The cache key used by initial_sync, _retrieve_g_metadata_cache and the
    final rm_cache: os.path.join(str(account.id), folder_name,
    "remote_g_metadata"). -/
def gMetadataKey (accountId : Nat) (folder : String) : String :=
  String.intercalate "/" [toString accountId, folder, "remote_g_metadata"]

/-- The cache key used by the write-back in _update_g_metadata_cache:
    "_".join([account.email_address, folder_name, "remote_g_metadata"]). -/
def writebackKey (email : String) (folder : String) : String :=
  String.intercalate "_" [email, folder, "remote_g_metadata"]

/-! ## Part 5: downloads, dedup, initial_sync -/

/-- Actions of _download_new_messages visible to the outside world, in
    order: blob-store puts of message parts, the ThreadDetector completion
    event firing after the batch is processed, and the database commit. -/
inductive SyncAction where
  | blobPut (key : Nat)
  | threadProcess
  | commit
deriving DecidableEq

/-- The per-message part saves of _download_new_messages: for each message
    in turn, spawn the blob puts of its parts and join them
    (_gevent_check_join); a failure aborts the chunk after this message's
    puts were attempted. -/
def putPartsForMessages (blobOk : Nat → Bool) : List (List Nat) → List SyncAction × Bool
  | [] => ([], true)
  | ps :: rest =>
    let acts := ps.map SyncAction.blobPut
    if ps.all blobOk then
      let r := putPartsForMessages blobOk rest
      (acts ++ r.1, r.2)
    else (acts, false)

/-- FolderSyncMonitor._download_new_messages: fetch the raw messages
    (safe_download / create_message), save all part blobs, raise
    SyncException fatally if any put fails, then hand the batch to the
    ThreadDetector and wait for its completion event, and only then
    add_all and commit the new FolderItems and Messages. -/
def download_new_messages (blobOk : Nat → Bool) (fr : FolderRemote) (selFolder : String)
    (db : DB) (uids : List Nat) : List SyncAction × Except Exn (DB × List FolderItem) :=
  let newItems := uids.map (fun u =>
    FolderItem.mk selFolder u (lookupMeta fr.meta u).msgid (fr.flagOf u))
  let newMsgs := uids.map (fun u =>
    Msg.mk (lookupMeta fr.meta u).msgid (lookupMeta fr.meta u).thrid)
  let puts := putPartsForMessages blobOk (uids.map fr.partsOf)
  if puts.2 then
    let td := processBatch ⟨[], db.threads⟩ newMsgs
    let db2 : DB :=
      { db with
        threads := td.1.store,
        folderItems := db.folderItems ++ newItems,
        messages := db.messages ++ newMsgs.map (fun m => m.msgid) }
    (puts.1 ++ [.threadProcess, .commit], .ok (db2, newItems))
  else (puts.1, .error .syncFatal)

/-- FolderSyncMonitor._add_new_folderitem: fetch flags for the uids, drop
    uids that already have a FolderItem in the selected folder, and insert
    FolderItem rows linking to the existing local Messages. -/
def add_new_folderitem (db : DB) (meta : List (Nat × GMeta)) (selFolder : String)
    (flagOf : Nat → Nat) (uids : List Nat) : DB :=
  let localFolderUids :=
    (db.folderItems.filter (fun fi => fi.folder == selFolder && decide (fi.uid ∈ uids))).map
      (fun fi => fi.uid)
  let uids2 := uids.filter (fun u => decide (u ∉ localFolderUids))
  if uids2.isEmpty then db
  else
    { db with
      folderItems := db.folderItems ++ uids2.map (fun u =>
        FolderItem.mk selFolder u (lookupMeta meta u).msgid (flagOf u)) }

/-- FolderSyncMonitor._deduplicate_message_download: split the uids by
    whether their X-GM-MSGID is already stored locally; uids whose message
    is local only get a FolderItem, the rest are returned for full
    download. -/
def deduplicate_message_download (db : DB) (meta : List (Nat × GMeta))
    (selFolder : String) (flagOf : Nat → Nat) (uids : List Nat) : DB × List Nat :=
  let candidates := uids.map (fun u => (lookupMeta meta u).msgid)
  let localGMsgids := db.messages.filter (fun m => decide (m ∈ candidates))
  let sorted := sortNat uids
  let fullDownload := sorted.filter (fun u => decide ((lookupMeta meta u).msgid ∉ localGMsgids))
  let folderitemOnly := sorted.filter (fun u => decide ((lookupMeta meta u).msgid ∈ localGMsgids))
  let db2 := if folderitemOnly.isEmpty then db
             else add_new_folderitem db meta selFolder flagOf folderitemOnly
  (db2, fullDownload)

/-- Modelled from the spec: account.remove_messages (not under src/) purges
    the FolderItem rows of the given uids; Message rows are never deleted
    while referenced.  _remove_deleted_messages deletes the uids we have
    locally but the server no longer has. -/
def remove_deleted_messages (db : DB) (folder : String)
    (localUids remoteUids : List Nat) : DB × List Nat :=
  let toDelete := (localUids.filter (fun u => decide (u ∉ remoteUids))).dedup
  if toDelete.isEmpty then (db, toDelete)
  else
    ({ db with
       folderItems := db.folderItems.filter (fun fi =>
         !(fi.folder == folder && decide (fi.uid ∈ toDelete))) },
     toDelete)

/-- FolderSyncMonitor._update_metadata: refresh the flags of the given
    uids from the server (account.update_metadata modelled from the spec:
    apply the fetched flags to the FolderItem rows). -/
def update_metadata (db : DB) (folder : String) (flagOf : Nat → Nat)
    (uids : List Nat) : DB :=
  { db with
    folderItems := db.folderItems.map (fun fi =>
      if fi.folder == folder && decide (fi.uid ∈ uids) then { fi with flags := flagOf fi.uid }
      else fi) }

/-- FolderSyncMonitor._update_validity: upsert the UIDValidity checkpoint
    row for the folder. -/
def update_validity (db : DB) (folder : String) (v hms : Nat) : DB :=
  if db.validity.any (fun e => e.1 == folder) then
    { db with validity := db.validity.map (fun e =>
        if e.1 == folder then (folder, v, hms) else e) }
  else { db with validity := db.validity ++ [(folder, v, hms)] }

/-- Python dict.update: replace entries whose key reappears, append the
    additions. -/
def dictUpdate (m adds : List (Nat × GMeta)) : List (Nat × GMeta) :=
  m.filter (fun e => decide (e.1 ∉ adds.map (fun a => a.1))) ++ adds

/-- FolderSyncMonitor._update_g_metadata_cache: after a HIGHESTMODSEQ
    change, query the new-or-updated uids, add metadata for the truly new
    ones, drop entries no longer on the server, write the map back to the
    cache (under the underscore-joined email-based key the code uses), and
    refresh flags of the updated uids in chunks of five times CHUNK_SIZE. -/
def update_g_metadata_cache (acct : Account) (chunkSize : Nat) (fr : FolderRemote)
    (folder : String) (m : List (Nat × GMeta)) (localUids : List Nat)
    (cachedHms : Nat) (db : DB) (cache : CacheMap) :
    List (Nat × GMeta) × DB × CacheMap :=
  let modified := fr.newAndUpdated cachedHms
  let newU := modified.filter (fun u => decide (u ∉ localUids))
  let updated := modified.filter (fun u => decide (u ∈ localUids))
  let m1 := dictUpdate m (fr.meta.filter (fun e => decide (e.1 ∈ newU)))
  let allU := fr.meta.map (fun e => e.1)
  let m2 := m1.filter (fun e => decide (e.1 ∈ allU))
  let cache2 := setCache cache (writebackKey acct.email folder) m2
  let db2 := (chunkList (5 * chunkSize) updated).foldl
    (fun dbA us => update_metadata dbA folder fr.flagOf us) db
  (m2, db2, cache2)

/-- FolderSyncMonitor._retrieve_g_metadata_cache: read the cache entry at
    the hierarchical key; when present and HIGHESTMODSEQ moved, update the
    cached map first. -/
def retrieve_g_metadata_cache (acct : Account) (chunkSize : Nat) (fr : FolderRemote)
    (folder : String) (localUids : List Nat) (cachedHms : Nat) (db : DB)
    (cache : CacheMap) : Option (List (Nat × GMeta)) × DB × CacheMap :=
  match getCache cache (gMetadataKey acct.id folder) with
  | some m =>
    if fr.highestmodseq > cachedHms then
      let r := update_g_metadata_cache acct chunkSize fr folder m localUids cachedHms db cache
      (some r.1, r.2.1, r.2.2)
    else (some m, db, cache)
  | none => (none, db, cache)

/-- Grouping of to-download uids by thread id (the uids_for dict built in
    _download_expanded_threads). -/
def groupUidsByThrid (metaOf : Nat → GMeta) (uids : List Nat) : List (Nat × List Nat) :=
  uids.foldl (fun acc u =>
    let t := (metaOf u).thrid
    if acc.any (fun e => e.1 == t) then
      acc.map (fun e => if e.1 == t then (e.1, e.2 ++ [u]) else e)
    else acc ++ [(t, [u])]) []

/-- The per-thread body of the inner loop of _download_expanded_threads:
    download one thread newest-first, keep the items whose msgid belongs to
    the original folder, and add the original-folder FolderItems with the
    original uid and flags. -/
def expandedThreadStep (blobOk : Nat → Bool) (allFolder folder : String)
    (allR : FolderRemote) (originalUidFor : Nat → Option Nat)
    (folderGMsgids : List Nat) (flagOf : Nat → Nat)
    (uidsFor : List (Nat × List Nat)) (acc : Except Exn (DB × List Nat)) (t : Nat) :
    Except Exn (DB × List Nat) :=
  match acc with
  | .error e => .error e
  | .ok (dbB, dl2) =>
    let tuids := ((uidsFor.find? (fun e => e.1 == t)).map (fun e => e.2)).getD []
    match download_new_messages blobOk allR allFolder dbB (sortNatDesc tuids) with
    | (_, .error e) => .error e
    | (_, .ok (dbC, items)) =>
      let newFIs := items.filter (fun i => decide (i.msgid ∈ folderGMsgids))
      let origFIs := newFIs.filterMap (fun i =>
        (originalUidFor i.msgid).map (fun ou =>
          FolderItem.mk folder ou i.msgid (flagOf ou)))
      .ok ({ dbC with folderItems := dbC.folderItems ++ origFIs },
           dl2 ++ sortNatDesc tuids)

/-- The per-chunk body of _download_expanded_threads: expand the chunk's
    thread ids into All Mail uids, deduplicate the download, group the
    remaining uids by thread and download thread by thread, most recent
    first. -/
def expandedChunkStep (blobOk : Nat → Bool) (allFolder folder : String)
    (allR : FolderRemote) (originalUidFor : Nat → Option Nat)
    (folderGMsgids : List Nat) (flagOf : Nat → Nat)
    (acc : Except Exn (DB × List Nat)) (thrids : List Nat) :
    Except Exn (DB × List Nat) :=
  match acc with
  | .error e => .error e
  | .ok (dbA, dl) =>
    let threadUids := (allR.meta.filter (fun e => decide (e.2.thrid ∈ thrids))).map
      (fun e => e.1)
    let threadMeta := allR.meta.filter (fun e => decide (e.1 ∈ threadUids))
    let dd := deduplicate_message_download dbA threadMeta allFolder allR.flagOf threadUids
    let uidsFor := groupUidsByThrid (lookupMeta threadMeta) dd.2
    (sortNatDesc (uidsFor.map (fun e => e.1))).foldl
      (expandedThreadStep blobOk allFolder folder allR originalUidFor folderGMsgids
        flagOf uidsFor)
      (.ok (dd.1, dl))

/-- FolderSyncMonitor._download_expanded_threads: select All Mail (with the
    UIDVALIDITY callback), expand the folder's thread ids in chunks of 500
    via expand_threads (the All Mail uids sharing those thread ids,
    modelled from the spec contract), deduplicate the download, fetch one
    thread at a time most-recent first, and re-link each downloaded
    message whose msgid belongs to the original folder as a FolderItem on
    the original folder with the original uid and flags.  Returns the new
    store state and the uids whose bodies were downloaded. -/
def download_expanded_threads (blobOk : Nat → Bool) (cr : Crispin) (folder : String)
    (meta : List (Nat × GMeta)) (uids : List Nat) (flagOf : Nat → Nat) (db : DB) :
    Except Exn (DB × List Nat) :=
  match folderRemote cr cr.allFolder with
  | none => .error .missing
  | some allR =>
    if uidvalidityCallbackOk db cr.allFolder allR.uidvalidity = false then .error .uidInvalid
    else
      let allGThrids := sortNatDesc
        (((meta.filter (fun e => decide (e.1 ∈ uids))).map (fun e => e.2.thrid)).dedup)
      let originalUidFor := fun (msgid : Nat) =>
        (meta.find? (fun e => decide (e.1 ∈ uids) && e.2.msgid == msgid)).map (fun e => e.1)
      let folderGMsgids := (meta.filter (fun e => decide (e.1 ∈ uids))).map (fun e => e.2.msgid)
      (chunkList 500 allGThrids).foldl
        (expandedChunkStep blobOk cr.allFolder folder allR originalUidFor folderGMsgids flagOf)
        (.ok (db, []))

/-- The per-chunk body of the download loop of initial_sync on the plain
    path (reverse-UID prioritised chunks of the full_download list). -/
def plainChunkStep (blobOk : Nat → Bool) (fr : FolderRemote) (folder : String)
    (acc : Except Exn (DB × List Nat)) (uids : List Nat) :
    Except Exn (DB × List Nat) :=
  match acc with
  | .error e => .error e
  | .ok pr =>
    match download_new_messages blobOk fr folder pr.1 uids with
    | (_, .error e) => .error e
    | (_, .ok (dbB, _)) => .ok (dbB, pr.2 ++ uids)

/-- The result of a completed initial_sync: the store, the cache, the
    state the handler returned, the uids whose bodies were downloaded and
    whether the run wrote the remote_g_metadata cache entry. -/
structure SyncResult where
  db : DB
  cache : CacheMap
  state : String
  downloaded : List Nat
  cacheSet : Bool
deriving DecidableEq

/-- The body of FolderSyncMonitor.initial_sync up to (excluding) the final
    rm_cache and the poll_folders membership return: select the folder
    with the UIDVALIDITY callback, obtain remote_g_metadata from the cache
    or from the server (writing the cache entry and the checkpoint in the
    latter case), purge locally-known uids deleted server-side, and either
    run the Gmail expanded-thread download (non All Mail folders) or the
    deduplicated chunked download of the unknown uids. -/
def initial_sync_core (blobOk : Nat → Bool) (acct : Account) (cr : Crispin)
    (folder : String) (db0 : DB) (cache0 : CacheMap) :
    Except Exn (DB × CacheMap × List Nat × Bool) :=
  match folderRemote cr folder with
  | none => .error .missing
  | some fr =>
    let localUids := db0.allUids folder
    if uidvalidityCallbackOk db0 folder fr.uidvalidity = false then .error .uidInvalid
    else
      let retrieved :=
        match db0.getValidity folder with
        | some cv => retrieve_g_metadata_cache acct cr.chunkSize fr folder localUids cv.2 db0 cache0
        | none => (none, db0, cache0)
      let mdc :=
        match retrieved.1 with
        | some m => (m, retrieved.2.1, retrieved.2.2, false)
        | none =>
          (fr.meta,
           update_validity retrieved.2.1 folder fr.uidvalidity fr.highestmodseq,
           setCache retrieved.2.2 (gMetadataKey acct.id folder) fr.meta,
           true)
      let m := mdc.1
      let db1 := mdc.2.1
      let cache1 := mdc.2.2.1
      let cacheWritten := mdc.2.2.2
      let remoteUids := sortNat (m.map (fun e => e.1))
      let rd := remove_deleted_messages db1 folder localUids remoteUids
      let db2 := rd.1
      let localAfter := localUids.dedup.filter (fun u => decide (u ∉ rd.2))
      let unknownUids := remoteUids.dedup.filter (fun u => decide (u ∉ localAfter))
      if acct.provider == "Gmail" && !(folder == cr.allFolder) then
        match download_expanded_threads blobOk cr folder m remoteUids fr.flagOf db2 with
        | .error e => .error e
        | .ok (db3, dl) => .ok (db3, cache1, dl, cacheWritten)
      else
        let dd := deduplicate_message_download db2 m folder fr.flagOf unknownUids
        match (chunkList cr.chunkSize dd.2.reverse).foldl
            (plainChunkStep blobOk fr folder) (.ok (dd.1, ([] : List Nat))) with
        | .error e => .error e
        | .ok (db4, dl) => .ok (db4, cache1, dl, cacheWritten)

/-- FolderSyncMonitor.initial_sync: run the body, then delete the
    remote_g_metadata cache entry and return poll when the folder is in
    the pollable set, finish otherwise. -/
def initial_sync (blobOk : Nat → Bool) (acct : Account) (cr : Crispin)
    (folder : String) (db0 : DB) (cache0 : CacheMap) : Except Exn SyncResult :=
  match initial_sync_core blobOk acct cr folder db0 cache0 with
  | .error e => .error e
  | .ok (db1, cache1, dl, flag) =>
    .ok ⟨db1, rmCache cache1 (gMetadataKey acct.id folder),
         (if decide (folder ∈ cr.pollFolders) = false then "finish" else "poll"),
         dl, flag⟩

/-! ## Part 6: poll, resync_uids and the state machine -/

/-- The externally visible actions of one pass of FolderSyncMonitor.poll,
    in program order.  The body of _highestmodseq_update runs inside the
    lease and is represented by the highestmodseqUpdate action. -/
inductive PollAction where
  | leaseAcquire
  | folderStatus
  | selectFolder
  | highestmodseqUpdate
  | statusCallback
  | sleepPoll
  | leaseRelease
deriving DecidableEq

/-- FolderSyncMonitor.poll: inside the with-block on the connection pool,
    probe the folder STATUS, run the MODSEQ delta when HIGHESTMODSEQ moved,
    publish the status callback and sleep poll_frequency; the lease is
    released when the with-block exits, after the sleep.  Returns the
    action trace and the state the handler returns. -/
def poll (needsUpdate : Bool) : List PollAction × String :=
  ([.leaseAcquire, .folderStatus] ++
    (if needsUpdate then [.selectFolder, .highestmodseqUpdate] else []) ++
    [.statusCallback, .sleepPoll, .leaseRelease], "poll")

/-- True when the trace releases the connection-pool lease strictly before
    the poll sleep. -/
def releasedBeforeSleep (tr : List PollAction) : Bool :=
  match tr.findIdx? (fun a => a == PollAction.leaseRelease),
        tr.findIdx? (fun a => a == PollAction.sleepPoll) with
  | some i, some j => decide (i < j)
  | _, _ => false

/-- FolderSyncMonitor.resync_uids: logs and raises NotImplementedError;
    the return of the previous state is unreachable. -/
def resync_uids (previousState : String) : Except Exn String :=
  .error .notImplemented

/-- One iteration of the while-loop of FolderSyncMonitor._run: run the
    handler of the current state; on success persist the returned state
    (the Bool records whether the worker then terminates, which happens
    exactly on the finish state); on UIDInvalid persist the corresponding
    uidinvalid state; any other exception propagates and kills the
    worker. -/
def runStep (handler : String → Except Exn String) (st : String) :
    Except Exn (String × Bool) :=
  match handler st with
  | .ok s => .ok (s, s == "finish")
  | .error .uidInvalid => .ok (st ++ " uidinvalid", false)
  | .error e => .error e

/-- The state_handlers table of FolderSyncMonitor. -/
def state_handlers (blobOk : Nat → Bool) (acct : Account) (cr : Crispin)
    (folder : String) (db : DB) (cache : CacheMap) (pollNeedsUpdate : Bool)
    (st : String) : Except Exn String :=
  if st == "initial" then (initial_sync blobOk acct cr folder db cache).map (fun r => r.state)
  else if st == "initial uidinvalid" then resync_uids "initial"
  else if st == "poll" then .ok (poll pollNeedsUpdate).2
  else if st == "poll uidinvalid" then resync_uids "poll"
  else if st == "finish" then .ok "finish"
  else .error .missing

/-! ## Part 7: SyncService.stop_sync -/

/-- The state of the SyncService relevant to stop_sync: the account rows,
    the registry of running monitors (by account id), the account ids that
    were sent a shutdown command, and the account ids whose sync lock was
    released. -/
structure ServiceState where
  accounts : List Account
  monitors : List Nat
  shutdowns : List Nat
  unlocked : List Nat
deriving DecidableEq

/-- The value stop_sync returns: either the single string of an early
    return or of the email-addressed lookup, or the per-account results
    table. -/
inductive StopReturn where
  | single (s : String)
  | table (entries : List (String × String))
deriving DecidableEq

/-- results[email] = value (insert or overwrite). -/
def setResult (rs : List (String × String)) (k v : String) : List (String × String) :=
  if rs.any (fun e => e.1 == k) then rs.map (fun e => if e.1 == k then (k, v) else e)
  else rs ++ [(k, v)]

/-- The loop of SyncService.stop_sync over the queried accounts.  An
    account with no monitor makes the whole function return the single
    string immediately; an account that is not sync_active first records
    the stopped-already result; the try block asserts the sync host
    matches, sends the shutdown, nulls sync_host, releases the lock and
    drops the monitor, recording the stopped result, and the bare except
    records an error result instead. -/
def stopSyncGo (fqdn : String) : List Account → ServiceState →
    List (String × String) → Except String (List (String × String)) × ServiceState
  | [], st, results => (.ok results, st)
  | a :: rest, st, results =>
    if decide (a.id ∉ st.monitors) then (.error "OK sync stopped already", st)
    else
      let results1 := if a.sync_active then results
                      else setResult results a.email "OK sync stopped already"
      if a.sync_host == some fqdn then
        let st2 : ServiceState :=
          { st with
            accounts := st.accounts.map (fun b =>
              if b.id == a.id then { b with sync_host := none } else b),
            shutdowns := st.shutdowns ++ [a.id],
            unlocked := st.unlocked ++ [a.id],
            monitors := st.monitors.filter (fun i => !(i == a.id)) }
        stopSyncGo fqdn rest st2 (setResult results1 a.email "OK sync stopped")
      else stopSyncGo fqdn rest st (setResult results1 a.email "ERROR error encountered")

/-- SyncService.stop_sync: query the targeted accounts (all of them when no
    email is given), run the loop, and shape the return value. -/
def stop_sync (fqdn : String) (st : ServiceState) (email : Option String) :
    StopReturn × ServiceState :=
  let query := match email with
               | some e => st.accounts.filter (fun a => a.email == e)
               | none => st.accounts
  match stopSyncGo fqdn query st [] with
  | (.error s, st2) => (.single s, st2)
  | (.ok results, st2) =>
    match email with
    | some e =>
      match results.find? (fun r => r.1 == e) with
      | some r => (.single r.2, st2)
      | none => (.single "OK no such user", st2)
    | none => (.table results, st2)

/-! ## Part 8: concrete scenario used by the closed witness statements -/

/-- Blob store in which every put succeeds. -/
def wBlob : Nat → Bool := fun _ => true

/-- Remote INBOX: uids 1 and 2, msgids 100 and 101, both on thread 7. -/
def wFrI : FolderRemote :=
  ⟨10, 20, [(1, ⟨100, 7⟩), (2, ⟨101, 7⟩)], fun _ => 0, fun _ => [], fun _ => []⟩

/-- Remote All Mail: uids 5 and 6 mirror the INBOX messages on thread 7,
    uid 7 is a message of an unrelated thread 8. -/
def wFrA : FolderRemote :=
  ⟨33, 44, [(5, ⟨100, 7⟩), (6, ⟨101, 7⟩), (7, ⟨102, 8⟩)], fun _ => 0, fun _ => [], fun _ => []⟩

def wCr : Crispin := ⟨[("INBOX", wFrI), ("All", wFrA)], "All", ["INBOX"], 3⟩

def wAcct : Account := ⟨1, "user@example.com", "Gmail", none, true⟩

/-- The store after a completed initial sync of INBOX in the scenario
    above: INBOX FolderItems for uids 1 and 2, All Mail FolderItems for
    the thread-expanded uids 5 and 6, the two messages, the INBOX
    checkpoint and the single thread row. -/
def wDb : DB :=
  ⟨[⟨"INBOX", 1, 100, 0⟩, ⟨"INBOX", 2, 101, 0⟩, ⟨"All", 5, 100, 0⟩, ⟨"All", 6, 101, 0⟩],
   [100, 101], [("INBOX", 10, 20)], [⟨7, [100, 101]⟩]⟩

/-- An empty store. -/
def wDb0 : DB := ⟨[], [], [], []⟩

/-- A one-message remote folder whose message has a single part, used by
    the download-ordering witness. -/
def wFrD : FolderRemote :=
  ⟨1, 1, [(1, ⟨100, 7⟩)], fun _ => 0, fun u => [u], fun _ => []⟩

/-- A remote folder used by the cache-key witness: no messages, no
    modified uids, HIGHESTMODSEQ 30. -/
def wFrC6 : FolderRemote := ⟨10, 30, [], fun _ => 0, fun _ => [], fun _ => []⟩

/-- Blob store in which every put fails. -/
def wBlobFail : Nat → Bool := fun _ => false

/-- A cached token for the expiry witness: value tok, expiration 10,
    single scope s. -/
def wG0 : GToken := ⟨"tok", 10, ["s"], 5⟩

/-- SyncService state for the stop_sync witness: account 1 has no monitor,
    account 2 is monitored and owned by host1. -/
def wSvc : ServiceState :=
  ⟨[⟨1, "a@x.com", "Gmail", some "host1", true⟩,
    ⟨2, "b@x.com", "Gmail", some "host1", true⟩],
   [2], [], []⟩

/-! ## Part 9: helper lemmas -/

theorem map_self_of_fix {α : Type} {l : List α} {f : α → α}
    (h : ∀ a ∈ l, f a = a) : l.map f = l := by
  induction l with
  | nil => rfl
  | cons a t ih =>
    simp only [List.map_cons, h a (by simp)]
    rw [ih (fun x hx => h x (by simp [hx]))]

theorem mem_insertSorted {a x : Nat} : ∀ {l : List Nat},
    a ∈ insertSorted x l ↔ a = x ∨ a ∈ l := by
  intro l
  induction l with
  | nil => simp [insertSorted]
  | cons y ys ih =>
    simp only [insertSorted]
    split
    · simp [List.mem_cons]
    · simp only [List.mem_cons, ih]
      tauto

theorem sortNat_cons (x : Nat) (l : List Nat) :
    sortNat (x :: l) = insertSorted x (sortNat l) := rfl

theorem mem_sortNat {a : Nat} : ∀ {l : List Nat}, a ∈ sortNat l ↔ a ∈ l := by
  intro l
  induction l with
  | nil => simp [sortNat]
  | cons x xs ih =>
    rw [sortNat_cons, mem_insertSorted]
    simp [ih, List.mem_cons]

theorem mem_sortNatDesc {a : Nat} {l : List Nat} : a ∈ sortNatDesc l ↔ a ∈ l := by
  simp [sortNatDesc, List.mem_reverse, mem_sortNat]

theorem chunkList_subset_aux {α : Type} (n : Nat) :
    ∀ (N : Nat) (l c : List α), l.length ≤ N → c ∈ chunkList n l → ∀ x ∈ c, x ∈ l := by
  intro N
  induction N with
  | zero =>
    intro l c hl hc x hx
    cases l with
    | nil => simp [chunkList] at hc
    | cons y ys => simp at hl
  | succ N ih =>
    intro l c hl hc x hx
    cases l with
    | nil => simp [chunkList] at hc
    | cons y ys =>
      rw [chunkList] at hc
      by_cases hn : n = 0
      · simp [hn] at hc
        subst hc
        exact hx
      · simp only [hn, dite_false] at hc
        rcases List.mem_cons.mp hc with hc | hc
        · subst hc
          exact List.take_subset _ _ hx
        · have hlen : ((y :: ys).drop n).length ≤ N := by
            simp only [List.length_drop, List.length_cons]
            simp only [List.length_cons] at hl
            omega
          exact List.drop_subset _ _ (ih _ c hlen hc x hx)

theorem mem_of_mem_chunkList {α : Type} {n : Nat} {l c : List α} {x : α}
    (hc : c ∈ chunkList n l) (hx : x ∈ c) : x ∈ l :=
  chunkList_subset_aux n l.length l c le_rfl hc x hx

theorem foldl_fixed {α β : Type} {f : β → α → β} {b : β} :
    ∀ {l : List α}, (∀ a ∈ l, f b a = b) → l.foldl f b = b := by
  intro l
  induction l with
  | nil => intro _; rfl
  | cons a t ih =>
    intro h
    rw [List.foldl_cons, h a (by simp)]
    exact ih (fun x hx => h x (by simp [hx]))

theorem lookup_nodup {l : List (Nat × GMeta)} {u : Nat} {g : GMeta}
    (hnd : (l.map (fun e => e.1)).Nodup) (hm : (u, g) ∈ l) :
    l.find? (fun e => e.1 == u) = some (u, g) := by
  induction l with
  | nil => simp at hm
  | cons e rest ih =>
    simp only [List.map_cons, List.nodup_cons] at hnd
    rcases List.mem_cons.mp hm with h | h
    · subst h
      exact List.find?_cons_of_pos _ (by simp)
    · have hne : ¬(e.1 == u) = true := by
        intro hb
        have : e.1 = u := by simpa using hb
        exact hnd.1 (this ▸ (List.mem_map.mpr ⟨(u, g), h, rfl⟩))
      have hstep : List.find? (fun x => x.1 == u) (e :: rest) =
          List.find? (fun x => x.1 == u) rest := List.find?_cons_of_neg rest hne
      rw [hstep]
      exact ih hnd.2 h

theorem lookupMeta_nodup {l : List (Nat × GMeta)} {u : Nat} {g : GMeta}
    (hnd : (l.map (fun e => e.1)).Nodup) (hm : (u, g) ∈ l) :
    lookupMeta l u = g := by
  simp [lookupMeta, lookup_nodup hnd hm]

theorem nodup_keys_filter {l : List (Nat × GMeta)} (p : Nat × GMeta → Bool)
    (h : (l.map (fun e => e.1)).Nodup) :
    ((l.filter p).map (fun e => e.1)).Nodup :=
  (((List.filter_sublist l).map (fun e => e.1)).nodup) h

theorem getCache_rmCache (c : CacheMap) (k : String) : getCache (rmCache c k) k = none := by
  have hf : (rmCache c k).find? (fun e => e.1 == k) = none := by
    rw [List.find?_eq_none]
    intro e he
    have := (List.mem_filter.mp he).2
    simp at this
    simp [this]
  simp [getCache, hf]

theorem rmCache_of_getCache_none {c : CacheMap} {k : String}
    (h : getCache c k = none) : rmCache c k = c := by
  unfold rmCache
  apply List.filter_eq_self.mpr
  intro e he
  have hf : c.find? (fun e => e.1 == k) = none := by
    cases hfind : c.find? (fun e => e.1 == k) with
    | none => rfl
    | some v => simp [getCache, hfind] at h
  have := List.find?_eq_none.mp hf e he
  simpa using this

theorem rmCache_setCache (c : CacheMap) (k : String) (v : List (Nat × GMeta)) :
    rmCache (setCache c k v) k = rmCache c k := by
  simp only [rmCache, setCache, List.filter_cons]
  have : (!(k == k)) = false := by simp
  simp only [this, Bool.false_eq_true, if_false]
  rw [List.filter_filter]
  apply List.filter_congr
  intro e he
  cases h : (e.1 == k) <;> simp [h]

theorem eq_of_mem_nodup_valkeys {l : List (String × Nat × Nat)}
    (hnd : (l.map (fun e => e.1)).Nodup) {e e0 : String × Nat × Nat}
    (he : e ∈ l) (he0 : e0 ∈ l) (hk : e.1 = e0.1) : e = e0 := by
  induction l with
  | nil => simp at he
  | cons a t ih =>
    simp only [List.map_cons, List.nodup_cons] at hnd
    rcases List.mem_cons.mp he with h | h <;> rcases List.mem_cons.mp he0 with h0 | h0
    · rw [h, h0]
    · exfalso
      apply hnd.1
      rw [h] at hk
      exact hk ▸ List.mem_map.mpr ⟨e0, h0, rfl⟩
    · exfalso
      apply hnd.1
      rw [h0] at hk
      exact hk ▸ List.mem_map.mpr ⟨e, h, rfl⟩
    · exact ih hnd.2 h h0

theorem update_validity_self {db : DB} {folder : String} {v hms : Nat}
    (hnd : (db.validity.map (fun e => e.1)).Nodup)
    (hval : db.getValidity folder = some (v, hms)) :
    update_validity db folder v hms = db := by
  obtain ⟨e0, hfind, hev⟩ : ∃ e0, db.validity.find? (fun e => e.1 == folder) = some e0 ∧
      (e0.2.1, e0.2.2) = (v, hms) := by
    unfold DB.getValidity at hval
    cases hfind : db.validity.find? (fun e => e.1 == folder) with
    | none => simp [hfind] at hval
    | some e0 =>
      refine ⟨e0, rfl, ?_⟩
      simp [hfind] at hval
      simp [hval]
  have he0mem : e0 ∈ db.validity := List.mem_of_find?_eq_some hfind
  have he0key : e0.1 = folder := by
    have := List.find?_some hfind
    simpa using this
  have he0eq : e0 = (folder, v, hms) := by
    obtain ⟨k, a, b⟩ := e0
    simp only at he0key
    injection hev with h1 h2
    simp only at h1 h2
    rw [he0key, h1, h2]
  have hany : db.validity.any (fun e => e.1 == folder) = true := by
    rw [List.any_eq_true]
    exact ⟨e0, he0mem, by simp [he0key]⟩
  unfold update_validity
  rw [hany]
  simp only [if_true]
  have hmap : db.validity.map (fun e => if e.1 == folder then (folder, v, hms) else e) =
      db.validity := by
    apply map_self_of_fix
    intro a ha
    by_cases hk : a.1 = folder
    · have : a = e0 := eq_of_mem_nodup_valkeys hnd ha he0mem (by rw [hk, he0key])
      simp [hk, this, he0eq]
    · simp [hk]
  rw [hmap]

theorem remove_deleted_noop {db : DB} {folder : String} {localUids remoteUids : List Nat}
    (h : ∀ u ∈ localUids, u ∈ remoteUids) :
    remove_deleted_messages db folder localUids remoteUids = (db, []) := by
  simp only [remove_deleted_messages]
  have hfil : localUids.filter (fun u => decide (u ∉ remoteUids)) = [] := by
    rw [List.filter_eq_nil]
    intro u hu
    simp [h u hu]
  rw [hfil]
  simp

theorem mem_allUids {db : DB} {folder : String} {u : Nat} :
    u ∈ db.allUids folder ↔ ∃ fi ∈ db.folderItems, fi.folder = folder ∧ fi.uid = u := by
  simp only [DB.allUids, List.mem_map, List.mem_filter, beq_iff_eq]
  constructor
  · rintro ⟨fi, ⟨hmem, hf⟩, hu⟩
    exact ⟨fi, hmem, hf, hu⟩
  · rintro ⟨fi, hmem, hf, hu⟩
    exact ⟨fi, ⟨hmem, hf⟩, hu⟩

theorem add_new_folderitem_noop {db : DB} {meta : List (Nat × GMeta)}
    {selFolder : String} {flagOf : Nat → Nat} {uids : List Nat}
    (h2 : ∀ u ∈ uids, u ∈ db.allUids selFolder) :
    add_new_folderitem db meta selFolder flagOf uids = db := by
  unfold add_new_folderitem
  have hfil : uids.filter (fun u => decide (u ∉
      ((db.folderItems.filter (fun fi => fi.folder == selFolder && decide (fi.uid ∈ uids))).map
        (fun fi => fi.uid)))) = [] := by
    rw [List.filter_eq_nil]
    intro u hu
    obtain ⟨fi, hmem, hf, huid⟩ := mem_allUids.mp (h2 u hu)
    have : u ∈ (db.folderItems.filter
        (fun fi => fi.folder == selFolder && decide (fi.uid ∈ uids))).map (fun fi => fi.uid) := by
      refine List.mem_map.mpr ⟨fi, List.mem_filter.mpr ⟨hmem, ?_⟩, huid⟩
      simp [hf, huid, hu]
    simp [this]
  simp only [hfil]
  simp

theorem dedup_all_local {db : DB} {meta : List (Nat × GMeta)} {selFolder : String}
    {flagOf : Nat → Nat} {uids : List Nat}
    (h1 : ∀ u ∈ uids, (lookupMeta meta u).msgid ∈ db.messages)
    (h2 : ∀ u ∈ uids, u ∈ db.allUids selFolder) :
    deduplicate_message_download db meta selFolder flagOf uids = (db, []) := by
  simp only [deduplicate_message_download]
  have hloc : ∀ u ∈ uids, (lookupMeta meta u).msgid ∈
      db.messages.filter (fun m => decide (m ∈ uids.map (fun u => (lookupMeta meta u).msgid))) := by
    intro u hu
    rw [List.mem_filter]
    refine ⟨h1 u hu, by simp; exact ⟨u, hu, rfl⟩⟩
  have hfull : (sortNat uids).filter (fun u => decide ((lookupMeta meta u).msgid ∉
      db.messages.filter (fun m => decide (m ∈ uids.map (fun u => (lookupMeta meta u).msgid))))) = [] := by
    rw [List.filter_eq_nil]
    intro u hu
    have hu2 := mem_sortNat.mp hu
    simp
    exact ⟨h1 u hu2, ⟨u, hu2, rfl⟩⟩
  have honly : (sortNat uids).filter (fun u => decide ((lookupMeta meta u).msgid ∈
      db.messages.filter (fun m => decide (m ∈ uids.map (fun u => (lookupMeta meta u).msgid))))) =
      sortNat uids := by
    rw [List.filter_eq_self]
    intro u hu
    have hu2 := mem_sortNat.mp hu
    simp
    exact ⟨h1 u hu2, ⟨u, hu2, rfl⟩⟩
  rw [hfull, honly]
  by_cases hse : (sortNat uids).isEmpty
  · simp [hse]
  · simp only [hse, if_false, Bool.false_eq_true]
    rw [add_new_folderitem_noop (fun u hu => h2 u (mem_sortNat.mp hu))]

theorem map_thrid_updateThreadStore (store : List Thread) (m : Msg) :
    (updateThreadStore store m).map (fun t => t.thrid) = store.map (fun t => t.thrid) := by
  unfold updateThreadStore
  rw [List.map_map]
  apply List.map_congr_left
  intro t ht
  simp only [Function.comp_apply]
  split <;> rfl

theorem processMsg_nodup {st : TDState} {m : Msg} (h : threadsUnique st.store) :
    threadsUnique (processMsg st m).store := by
  unfold processMsg
  split
  · simpa only [threadsUnique, map_thrid_updateThreadStore] using h
  · unfold threadFromMessage
    split
    · simpa only [threadsUnique, map_thrid_updateThreadStore] using h
    · rename_i hany
      have hno : m.g_thrid ∉ st.store.map (fun t => t.thrid) := by
        intro hmem
        obtain ⟨t, ht, heq⟩ := List.mem_map.mp hmem
        exact hany (List.any_eq_true.mpr ⟨t, ht, by simp [heq]⟩)
      unfold threadsUnique at h ⊢
      simp only [List.map_append, List.map_cons, List.map_nil]
      rw [List.nodup_append]
      refine ⟨h, List.nodup_singleton _, ?_⟩
      intro a ha hb
      simp at hb
      exact hno (hb ▸ ha)

theorem foldl_processMsg_nodup (msgs : List Msg) :
    ∀ st : TDState, threadsUnique st.store →
      threadsUnique (msgs.foldl processMsg st).store := by
  induction msgs with
  | nil => intro st h; exact h
  | cons m rest ih =>
    intro st h
    rw [List.foldl_cons]
    exact ih _ (processMsg_nodup h)

theorem processBatch_nodup {st : TDState} {msgs : List Msg}
    (h : threadsUnique st.store) : threadsUnique (processBatch st msgs).1.store := by
  unfold processBatch
  exact foldl_processMsg_nodup msgs st h

theorem processBatches_spec (batches : List (List Msg)) :
    ∀ st : TDState, threadsUnique st.store →
      threadsUnique (processBatches st batches).1.store ∧
      (processBatches st batches).1.cache = (if batches.isEmpty then st.cache else []) ∧
      (processBatches st batches).2 = batches.map (fun _ => true) := by
  induction batches with
  | nil => intro st h; exact ⟨h, rfl, rfl⟩
  | cons b rest ih =>
    intro st h
    have h1 : threadsUnique (processBatch st b).1.store := processBatch_nodup h
    obtain ⟨ha, hb, hc⟩ := ih (processBatch st b).1 h1
    have hcache : (processBatch st b).1.cache = [] := rfl
    have hev : (processBatch st b).2 = true := rfl
    refine ⟨ha, ?_, ?_⟩
    · show (processBatches (processBatch st b).1 rest).1.cache =
        if (b :: rest).isEmpty = true then st.cache else []
      rw [hb]
      cases hre : rest.isEmpty <;> simp [hre, hcache]
    · show (processBatch st b).2 :: (processBatches (processBatch st b).1 rest).2 =
        (b :: rest).map (fun _ => true)
      rw [hc, hev]
      rfl

theorem putParts_snd (blobOk : Nat → Bool) :
    ∀ parts : List (List Nat),
      (putPartsForMessages blobOk parts).2 = parts.all (fun ps => ps.all blobOk) := by
  intro parts
  induction parts with
  | nil => rfl
  | cons ps rest ih =>
    unfold putPartsForMessages
    by_cases h : ps.all blobOk
    · simp [h, ih]
    · simp [h]

theorem putParts_fst_of_all (blobOk : Nat → Bool) :
    ∀ parts : List (List Nat), parts.all (fun ps => ps.all blobOk) = true →
      (putPartsForMessages blobOk parts).1 = parts.flatten.map SyncAction.blobPut := by
  intro parts
  induction parts with
  | nil => intro _; rfl
  | cons ps rest ih =>
    intro h
    rw [List.all_cons, Bool.and_eq_true] at h
    unfold putPartsForMessages
    simp only [h.1, if_true]
    rw [ih h.2]
    simp

theorem putParts_only_puts (blobOk : Nat → Bool) :
    ∀ parts : List (List Nat), ∀ a ∈ (putPartsForMessages blobOk parts).1,
      ∃ k, a = SyncAction.blobPut k := by
  intro parts
  induction parts with
  | nil => intro a ha; simp [putPartsForMessages] at ha
  | cons ps rest ih =>
    intro a ha
    unfold putPartsForMessages at ha
    by_cases h : ps.all blobOk
    · simp only [h, if_true, List.mem_append] at ha
      rcases ha with ha | ha
      · obtain ⟨k, _, hk⟩ := List.mem_map.mp ha
        exact ⟨k, hk.symm⟩
      · exact ih a ha
    · simp only [h, Bool.false_eq_true, if_false] at ha
      obtain ⟨k, _, hk⟩ := List.mem_map.mp ha
      exact ⟨k, hk.symm⟩

theorem lastOtherFrom_cons (no : Option Nat) (c : AuthCreds) (l : List AuthCreds) :
    lastOtherFrom no (c :: l) =
      lastOtherFrom (match c.refresh with | .otherError e => some e | _ => no) l := by
  unfold lastOtherFrom
  rw [List.foldl_cons]

theorem newTokenGo_spec (now : Int) (scope : String) :
    ∀ (l : List AuthCreds) (no : Option Nat) (marked : List Nat),
      newTokenGo now scope l no marked =
        ((match (l.filter (fun c => decide (scope ∈ c.scopes))).find?
              (fun c => c.refresh.isSuccess) with
          | some c => Except.ok (mkGToken now c)
          | none =>
            Except.error
              (match lastOtherFrom no ((l.filter (fun c => decide (scope ∈ c.scopes))).takeWhile
                   (fun c => !c.refresh.isSuccess)) with
               | some e => TokenErr.nonOAuth e
               | none => TokenErr.oauthNoValid)),
         marked ++ (((l.filter (fun c => decide (scope ∈ c.scopes))).takeWhile
             (fun c => !c.refresh.isSuccess)).filter
             (fun c => c.refresh.isOauthError)).map (fun c => c.id)) := by
  intro l
  induction l with
  | nil =>
    intro no marked
    cases no <;> simp [newTokenGo, lastOtherFrom]
  | cons c rest ih =>
    intro no marked
    by_cases hs : scope ∈ c.scopes
    · have hfc : (c :: rest).filter (fun c => decide (scope ∈ c.scopes)) =
          c :: rest.filter (fun c => decide (scope ∈ c.scopes)) :=
        List.filter_cons_of_pos (by simp [hs])
      cases hr : c.refresh with
      | success t e =>
        have hsucc : c.refresh.isSuccess = true := by simp [hr, RefreshOutcome.isSuccess]
        rw [hfc]
        have hfind : (c :: rest.filter (fun c => decide (scope ∈ c.scopes))).find?
            (fun c => c.refresh.isSuccess) = some c :=
          List.find?_cons_of_pos _ hsucc
        rw [hfind]
        have htw : (c :: rest.filter (fun c => decide (scope ∈ c.scopes))).takeWhile
            (fun c => !c.refresh.isSuccess) = [] := by
          rw [List.takeWhile_cons_of_neg]
          simp [hsucc]
        rw [htw]
        simp [newTokenGo, hs, hr, mkGToken]
      | oauthError =>
        have hsucc : c.refresh.isSuccess = false := by simp [hr, RefreshOutcome.isSuccess]
        have hoa : c.refresh.isOauthError = true := by simp [hr, RefreshOutcome.isOauthError]
        rw [hfc]
        have hfind : (c :: rest.filter (fun c => decide (scope ∈ c.scopes))).find?
            (fun c => c.refresh.isSuccess) =
            (rest.filter (fun c => decide (scope ∈ c.scopes))).find?
              (fun c => c.refresh.isSuccess) :=
          List.find?_cons_of_neg _ (by simp [hsucc])
        rw [hfind]
        have htw : (c :: rest.filter (fun c => decide (scope ∈ c.scopes))).takeWhile
            (fun c => !c.refresh.isSuccess) =
            c :: (rest.filter (fun c => decide (scope ∈ c.scopes))).takeWhile
              (fun c => !c.refresh.isSuccess) := by
          rw [List.takeWhile_cons_of_pos]
          simp [hsucc]
        rw [htw, lastOtherFrom_cons]
        have hstep : newTokenGo now scope (c :: rest) no marked =
            newTokenGo now scope rest no (marked ++ [c.id]) := by
          simp [newTokenGo, hs, hr]
        rw [hstep, ih no (marked ++ [c.id])]
        simp [hr, List.filter_cons, RefreshOutcome.isOauthError, List.append_assoc]
      | otherError code =>
        have hsucc : c.refresh.isSuccess = false := by simp [hr, RefreshOutcome.isSuccess]
        have hoa : c.refresh.isOauthError = false := by simp [hr, RefreshOutcome.isOauthError]
        rw [hfc]
        have hfind : (c :: rest.filter (fun c => decide (scope ∈ c.scopes))).find?
            (fun c => c.refresh.isSuccess) =
            (rest.filter (fun c => decide (scope ∈ c.scopes))).find?
              (fun c => c.refresh.isSuccess) :=
          List.find?_cons_of_neg _ (by simp [hsucc])
        rw [hfind]
        have htw : (c :: rest.filter (fun c => decide (scope ∈ c.scopes))).takeWhile
            (fun c => !c.refresh.isSuccess) =
            c :: (rest.filter (fun c => decide (scope ∈ c.scopes))).takeWhile
              (fun c => !c.refresh.isSuccess) := by
          rw [List.takeWhile_cons_of_pos]
          simp [hsucc]
        rw [htw, lastOtherFrom_cons]
        have hstep : newTokenGo now scope (c :: rest) no marked =
            newTokenGo now scope rest (some code) marked := by
          simp [newTokenGo, hs, hr]
        rw [hstep, ih (some code) marked]
        simp [hr, List.filter_cons, RefreshOutcome.isOauthError]
    · have hfc : (c :: rest).filter (fun c => decide (scope ∈ c.scopes)) =
          rest.filter (fun c => decide (scope ∈ c.scopes)) :=
        List.filter_cons_of_neg (by simp [hs])
      rw [hfc]
      have hstep : newTokenGo now scope (c :: rest) no marked =
          newTokenGo now scope rest no marked := by
        simp [newTokenGo, hs]
      rw [hstep, ih no marked]

theorem cacheLookupG_foldl (aid : Nat) (g : GToken) :
    ∀ (scopes : List String) (m : GTokenCacheMap) (s : String),
      cacheLookupG (scopes.foldl (fun acc x => ((aid, x), g) :: acc) m) aid s =
        (if s ∈ scopes then some g else cacheLookupG m aid s) := by
  intro scopes
  induction scopes with
  | nil => intro m s; simp
  | cons x xs ih =>
    intro m s
    rw [List.foldl_cons, ih]
    by_cases hx : s ∈ xs
    · simp [hx]
    · by_cases hsx : s = x
      · subst hsx
        have hfind : (((aid, s), g) :: m).find? (fun e => e.1 == (aid, s)) =
            some ((aid, s), g) := List.find?_cons_of_pos _ (by simp)
        simp [hx, cacheLookupG, hfind]
      · have hfind : (((aid, x), g) :: m).find? (fun e => e.1 == (aid, s)) =
            m.find? (fun e => e.1 == (aid, s)) :=
          List.find?_cons_of_neg _ (by simp [hsx]; intro h; exact absurd h.symm hsx)
        have hmem : (s ∈ x :: xs) = False := by
          simp [List.mem_cons, hsx, hx]
        simp [hx, hsx, cacheLookupG, hfind, hmem]

theorem cacheLookupG_cache_token {m : GTokenCacheMap} {aid : Nat} {g : GToken}
    {s : String} (hs : s ∈ g.scopes) :
    cacheLookupG (cache_token m aid g) aid s = some g := by
  unfold cache_token
  rw [cacheLookupG_foldl]
  simp [hs]

theorem dedup_empty (db : DB) (meta : List (Nat × GMeta)) (selFolder : String)
    (flagOf : Nat → Nat) :
    deduplicate_message_download db meta selFolder flagOf [] = (db, []) := rfl

theorem expandedChunkStep_noop (blobOk : Nat → Bool) (allFolder folder : String)
    (allR : FolderRemote) (originalUidFor : Nat → Option Nat) (folderGMsgids : List Nat)
    (flagOf : Nat → Nat) (db : DB) (dl : List Nat) (thrids : List Nat)
    (hnodup : (allR.meta.map (fun e => e.1)).Nodup)
    (hsync : ∀ e ∈ allR.meta, e.2.thrid ∈ thrids →
      e.2.msgid ∈ db.messages ∧ e.1 ∈ db.allUids allFolder) :
    expandedChunkStep blobOk allFolder folder allR originalUidFor folderGMsgids flagOf
      (.ok (db, dl)) thrids = .ok (db, dl) := by
  have hchar : ∀ u ∈ (allR.meta.filter (fun e => decide (e.2.thrid ∈ thrids))).map
      (fun e => e.1),
      (lookupMeta (allR.meta.filter (fun e => decide (e.1 ∈
        (allR.meta.filter (fun e => decide (e.2.thrid ∈ thrids))).map (fun e => e.1)))) u).msgid
        ∈ db.messages ∧ u ∈ db.allUids allFolder := by
    intro u hu
    obtain ⟨e, he, heq⟩ := List.mem_map.mp hu
    have hef := List.mem_filter.mp he
    have hthr : e.2.thrid ∈ thrids := by simpa using hef.2
    have hmem2 : e ∈ allR.meta.filter (fun e => decide (e.1 ∈
        (allR.meta.filter (fun e => decide (e.2.thrid ∈ thrids))).map (fun e => e.1))) := by
      refine List.mem_filter.mpr ⟨hef.1, ?_⟩
      simp only [decide_eq_true_eq]
      exact heq ▸ hu
    have hnd2 := nodup_keys_filter (fun e => decide (e.1 ∈
        (allR.meta.filter (fun e => decide (e.2.thrid ∈ thrids))).map (fun e => e.1))) hnodup
    have hpair : (u, e.2) ∈ allR.meta.filter (fun e => decide (e.1 ∈
        (allR.meta.filter (fun e => decide (e.2.thrid ∈ thrids))).map (fun e => e.1))) := by
      have : (u, e.2) = e := by
        obtain ⟨e1, e2⟩ := e
        simp only at heq
        rw [heq]
      rw [this]
      exact hmem2
    have hlk := lookupMeta_nodup hnd2 hpair
    obtain ⟨hm1, hm2⟩ := hsync e hef.1 hthr
    refine ⟨?_, heq ▸ hm2⟩
    rw [hlk]
    exact hm1
  have hdd := @dedup_all_local db
    (allR.meta.filter (fun e => decide (e.1 ∈
      (allR.meta.filter (fun e => decide (e.2.thrid ∈ thrids))).map (fun e => e.1))))
    allFolder allR.flagOf
    ((allR.meta.filter (fun e => decide (e.2.thrid ∈ thrids))).map (fun e => e.1))
    (fun u hu => (hchar u hu).1) (fun u hu => (hchar u hu).2)
  simp only [expandedChunkStep]
  rw [hdd]
  simp [groupUidsByThrid, sortNatDesc, sortNat]

theorem download_expanded_threads_noop (blobOk : Nat → Bool) (cr : Crispin)
    (folder : String) (meta : List (Nat × GMeta)) (uids : List Nat)
    (flagOf : Nat → Nat) (db : DB) (ar : FolderRemote)
    (har : folderRemote cr cr.allFolder = some ar)
    (harv : uidvalidityCallbackOk db cr.allFolder ar.uidvalidity = true)
    (harnodup : (ar.meta.map (fun e => e.1)).Nodup)
    (harsync : ∀ e ∈ ar.meta, e.2.thrid ∈ meta.map (fun x => x.2.thrid) →
      e.2.msgid ∈ db.messages ∧ e.1 ∈ db.allUids cr.allFolder) :
    download_expanded_threads blobOk cr folder meta uids flagOf db = .ok (db, []) := by
  simp only [download_expanded_threads]
  rw [har]
  simp only [harv]
  have hred : (true = false) = False := by simp
  simp only [hred, if_false]
  apply foldl_fixed
  intro chunk hchunk
  apply expandedChunkStep_noop _ _ _ _ _ _ _ _ _ _ harnodup
  intro e he hthr
  apply harsync e he
  have h1 : e.2.thrid ∈ sortNatDesc
      (((meta.filter (fun e => decide (e.1 ∈ uids))).map (fun e => e.2.thrid)).dedup) :=
    mem_of_mem_chunkList hchunk hthr
  have h2 := List.mem_dedup.mp (mem_sortNatDesc.mp h1)
  obtain ⟨x, hx, hxe⟩ := List.mem_map.mp h2
  exact List.mem_map.mpr ⟨x, (List.mem_filter.mp hx).1, hxe⟩

theorem initial_sync_core_idempotent (blobOk : Nat → Bool) (acct : Account)
    (cr : Crispin) (folder : String) (db : DB) (cache : CacheMap)
    (fr ar : FolderRemote)
    (hfr : folderRemote cr folder = some fr)
    (har : folderRemote cr cr.allFolder = some ar)
    (hvnodup : (db.validity.map (fun e => e.1)).Nodup)
    (hval : db.getValidity folder = some (fr.uidvalidity, fr.highestmodseq))
    (hcache : getCache cache (gMetadataKey acct.id folder) = none)
    (hlocal : ∀ u ∈ db.allUids folder, u ∈ fr.meta.map (fun e => e.1))
    (hremote : ∀ e ∈ fr.meta, e.1 ∈ db.allUids folder)
    (harv : uidvalidityCallbackOk db cr.allFolder ar.uidvalidity = true)
    (harnodup : (ar.meta.map (fun e => e.1)).Nodup)
    (harsync : ∀ e ∈ ar.meta, e.2.thrid ∈ fr.meta.map (fun x => x.2.thrid) →
      e.2.msgid ∈ db.messages ∧ e.1 ∈ db.allUids cr.allFolder) :
    initial_sync_core blobOk acct cr folder db cache =
      .ok (db, setCache cache (gMetadataKey acct.id folder) fr.meta, [], true) := by
  have hcb : uidvalidityCallbackOk db folder fr.uidvalidity = true := by
    unfold uidvalidityCallbackOk
    rw [hval]
    simp
  have hretr : retrieve_g_metadata_cache acct cr.chunkSize fr folder (db.allUids folder)
      fr.highestmodseq db cache = (none, db, cache) := by
    unfold retrieve_g_metadata_cache
    rw [hcache]
  have hupd : update_validity db folder fr.uidvalidity fr.highestmodseq = db :=
    update_validity_self hvnodup hval
  have hrd : remove_deleted_messages db folder (db.allUids folder)
      (sortNat (fr.meta.map (fun e => e.1))) = (db, []) := by
    apply remove_deleted_noop
    intro u hu
    exact mem_sortNat.mpr (hlocal u hu)
  have hunknown : (sortNat (fr.meta.map (fun e => e.1))).dedup.filter
      (fun u => decide (u ∉ (db.allUids folder).dedup.filter
        (fun u => decide (u ∉ ([] : List Nat))))) = [] := by
    rw [List.filter_eq_nil]
    intro u hu
    have hu2 : u ∈ fr.meta.map (fun e => e.1) :=
      mem_sortNat.mp (List.mem_dedup.mp hu)
    obtain ⟨e, he, heq⟩ := List.mem_map.mp hu2
    have hua : u ∈ db.allUids folder := heq ▸ hremote e he
    have : u ∈ (db.allUids folder).dedup.filter
        (fun u => decide (u ∉ ([] : List Nat))) := by
      rw [List.mem_filter]
      exact ⟨List.mem_dedup.mpr hua, by simp⟩
    simp [this, hua]
  simp only [initial_sync_core]
  rw [hfr]
  simp only [hcb]
  have hred : (true = false) = False := by simp
  simp only [hred, if_false]
  rw [hval]
  simp only [hretr, hupd]
  rw [hrd]
  simp only [hunknown]
  by_cases hg : (acct.provider == "Gmail" && !(folder == cr.allFolder)) = true
  · simp only [hg, if_true]
    rw [download_expanded_threads_noop blobOk cr folder fr.meta
      (sortNat (fr.meta.map (fun e => e.1))) fr.flagOf db ar har harv harnodup harsync]
  · simp only [hg, Bool.false_eq_true, if_false]
    rw [dedup_empty]
    simp [chunkList]

/-! ## Part 10: the claims -/

/-- C1: the claim states that for a worker in state initial uidinvalid or
    poll uidinvalid, the recovery handler resync_uids refetches all remote
    UIDs, re-matches them to local messages by provider message-id,
    rewrites FolderItem.uid in place, and returns the worker to the
    previous state.  The code instead raises NotImplementedError
    unconditionally (its docstring describes the claimed behaviour, and
    the return of the previous state is unreachable), so the uidinvalid
    handler kills the worker instead of returning it to the previous
    state. -/
theorem c1_resync_uids_not_implemented :
    (∀ ps : String, resync_uids ps = .error .notImplemented) ∧
    (∀ (blobOk : Nat → Bool) (acct : Account) (cr : Crispin) (folder : String)
        (db : DB) (cache : CacheMap) (pb : Bool),
      runStep (state_handlers blobOk acct cr folder db cache pb) "initial uidinvalid" =
        .error .notImplemented ∧
      runStep (state_handlers blobOk acct cr folder db cache pb) "poll uidinvalid" =
        .error .notImplemented) := by
  constructor
  · intro ps
    rfl
  · intro blobOk acct cr folder db cache pb
    constructor <;> rfl

/-- C2: for every chunk processed by _download_new_messages, the database
    commit happens only after every blob-store put of every (payload
    carrying) part of every new message in the chunk has succeeded and the
    ThreadDetector has processed the batch (its completion event fired);
    if any blob put fails the chunk raises a fatal SyncException and
    nothing from the chunk is committed. -/
theorem c2_download_commit_ordering (blobOk : Nat → Bool) (fr : FolderRemote)
    (selFolder : String) (db : DB) (uids : List Nat) :
    (∀ tr out, download_new_messages blobOk fr selFolder db uids = (tr, .ok out) →
      ((uids.map fr.partsOf).all (fun ps => ps.all blobOk) = true ∧
       tr = ((uids.map fr.partsOf).flatten).map SyncAction.blobPut ++
         [SyncAction.threadProcess, SyncAction.commit])) ∧
    (∀ tr e, download_new_messages blobOk fr selFolder db uids = (tr, .error e) →
      (e = .syncFatal ∧ (uids.map fr.partsOf).all (fun ps => ps.all blobOk) = false ∧
       SyncAction.commit ∉ tr ∧ SyncAction.threadProcess ∉ tr)) := by
  constructor
  · intro tr out h
    simp only [download_new_messages] at h
    split at h
    · rename_i hc
      have hall : (uids.map fr.partsOf).all (fun ps => ps.all blobOk) = true := by
        rw [← putParts_snd blobOk (uids.map fr.partsOf)]
        exact hc
      have htr : tr = (putPartsForMessages blobOk (uids.map fr.partsOf)).1 ++
          [SyncAction.threadProcess, SyncAction.commit] := by
        have := congrArg Prod.fst h
        simpa using this.symm
      refine ⟨hall, ?_⟩
      rw [htr, putParts_fst_of_all blobOk _ hall]
    · rename_i hc
      exfalso
      have := congrArg Prod.snd h
      simp at this
  · intro tr e h
    simp only [download_new_messages] at h
    split at h
    · rename_i hc
      exfalso
      have := congrArg Prod.snd h
      simp at this
    · rename_i hc
      have hall : (uids.map fr.partsOf).all (fun ps => ps.all blobOk) = false := by
        rw [← putParts_snd blobOk (uids.map fr.partsOf)]
        simpa using hc
      have htr : tr = (putPartsForMessages blobOk (uids.map fr.partsOf)).1 := by
        have := congrArg Prod.fst h
        simpa using this.symm
      have he : e = Exn.syncFatal := by
        have := congrArg Prod.snd h
        simpa using this.symm
      refine ⟨he, hall, ?_, ?_⟩
      · rw [htr]
        intro hmem
        obtain ⟨k, hk⟩ := putParts_only_puts blobOk (uids.map fr.partsOf) _ hmem
        exact SyncAction.noConfusion hk
      · rw [htr]
        intro hmem
        obtain ⟨k, hk⟩ := putParts_only_puts blobOk (uids.map fr.partsOf) _ hmem
        exact SyncAction.noConfusion hk

/-- Witness for C2 at concrete inputs: a successful one-message chunk
    commits last, after the blob put and the thread event; a chunk whose
    blob put fails never commits. -/
theorem c2_download_commit_ordering_witness :
    (([1].map wFrD.partsOf).all (fun ps => ps.all wBlob) = true ∧
     (download_new_messages wBlob wFrD "F" wDb0 [1]).1 =
       (([1].map wFrD.partsOf).flatten).map SyncAction.blobPut ++
         [SyncAction.threadProcess, SyncAction.commit]) ∧
    SyncAction.commit ∉ (download_new_messages wBlobFail wFrD "F" wDb0 [1]).1 :=
  ⟨(c2_download_commit_ordering wBlob wFrD "F" wDb0 [1]).1 _ _ rfl,
   ((c2_download_commit_ordering wBlobFail wFrD "F" wDb0 [1]).2 _ _ rfl).2.2.1⟩

/-- C3: for every account and provider thread id, at most one Thread row
    with that thread id exists after any sequence of batches processed by
    the account's single ThreadDetector (starting from a store satisfying
    the invariant); after each batch the batch-local cache is cleared and
    the completion event is fired.  Within a batch the cache-hit path
    updates the cached Thread and the miss path creates or loads and
    caches, as embedded in processMsg from the source. -/
theorem c3_thread_detector_unique (store0 : List Thread)
    (h : threadsUnique store0) (batches : List (List Msg)) :
    threadsUnique (processBatches ⟨[], store0⟩ batches).1.store ∧
    (processBatches ⟨[], store0⟩ batches).1.cache = [] ∧
    (processBatches ⟨[], store0⟩ batches).2 = batches.map (fun _ => true) := by
  obtain ⟨h1, h2, h3⟩ := processBatches_spec batches ⟨[], store0⟩ h
  refine ⟨h1, ?_, h3⟩
  rw [h2]
  cases batches <;> simp

/-- Witness for C3: two overlapping batches carrying the same thread id
    produce a single Thread row, both completion events fire. -/
theorem c3_thread_detector_unique_witness :
    threadsUnique (processBatches ⟨[], []⟩ [[⟨100, 7⟩, ⟨101, 7⟩], [⟨102, 7⟩]]).1.store ∧
    (processBatches ⟨[], []⟩ [[⟨100, 7⟩, ⟨101, 7⟩], [⟨102, 7⟩]]).1.cache = [] ∧
    (processBatches ⟨[], []⟩ [[⟨100, 7⟩, ⟨101, 7⟩], [⟨102, 7⟩]]).2 =
      ([[⟨100, 7⟩, ⟨101, 7⟩], [⟨102, 7⟩]] : List (List Msg)).map (fun _ => true) :=
  c3_thread_detector_unique [] (by unfold threadsUnique; simp)
    [[⟨100, 7⟩, ⟨101, 7⟩], [⟨102, 7⟩]]

/-- C4: running initial_sync a second time when the remote folder state
    (UIDs, metadata, UIDVALIDITY, HIGHESTMODSEQ) is unchanged — that is,
    from a store state in which the folder is fully synced against the
    unchanged remote and the cache entry was removed by the previous run —
    creates no new Message or FolderItem rows, downloads no message
    bodies, and deletes nothing (the store comes back identical); the
    remote_g_metadata cache entry is regenerated during the run (cacheSet)
    and removed again at its end (the returned cache equals the input
    cache, which holds nothing at the key). -/
theorem c4_initial_sync_idempotent (blobOk : Nat → Bool) (acct : Account)
    (cr : Crispin) (folder : String) (db : DB) (cache : CacheMap)
    (fr ar : FolderRemote)
    (hfr : folderRemote cr folder = some fr)
    (har : folderRemote cr cr.allFolder = some ar)
    (hvnodup : (db.validity.map (fun e => e.1)).Nodup)
    (hval : db.getValidity folder = some (fr.uidvalidity, fr.highestmodseq))
    (hcache : getCache cache (gMetadataKey acct.id folder) = none)
    (hlocal : ∀ u ∈ db.allUids folder, u ∈ fr.meta.map (fun e => e.1))
    (hremote : ∀ e ∈ fr.meta, e.1 ∈ db.allUids folder)
    (harv : uidvalidityCallbackOk db cr.allFolder ar.uidvalidity = true)
    (harnodup : (ar.meta.map (fun e => e.1)).Nodup)
    (harsync : ∀ e ∈ ar.meta, e.2.thrid ∈ fr.meta.map (fun x => x.2.thrid) →
      e.2.msgid ∈ db.messages ∧ e.1 ∈ db.allUids cr.allFolder) :
    initial_sync blobOk acct cr folder db cache =
      .ok ⟨db, cache,
        (if decide (folder ∈ cr.pollFolders) = false then "finish" else "poll"),
        [], true⟩ := by
  unfold initial_sync
  rw [initial_sync_core_idempotent blobOk acct cr folder db cache fr ar hfr har hvnodup
    hval hcache hlocal hremote harv harnodup harsync]
  dsimp only
  rw [rmCache_setCache, rmCache_of_getCache_none hcache]

/-- Witness for C4: the Gmail INBOX scenario after a completed first sync;
    the second run returns the store untouched, downloads nothing,
    regenerates the cache entry and leaves the cache empty. -/
theorem c4_initial_sync_idempotent_witness :
    initial_sync wBlob wAcct wCr "INBOX" wDb [] =
      .ok ⟨wDb, [],
        (if decide (("INBOX" : String) ∈ wCr.pollFolders) = false then "finish" else "poll"),
        [], true⟩ :=
  c4_initial_sync_idempotent wBlob wAcct wCr "INBOX" wDb [] wFrI wFrA rfl rfl
    (by decide) rfl rfl (by decide) (by decide) rfl (by decide) (by decide)

/-- C5 counterexample: the claim states that in every pass of the poll
    handler the connection-pool lease is released before the handler
    sleeps for poll_frequency.  In the code the sleep statement is inside
    the with-block that holds the lease, so the lease is released only
    after the sleep: on both possible passes (with and without a
    HIGHESTMODSEQ update) the release does not precede the sleep. -/
theorem c5_poll_lease_counterexample :
    releasedBeforeSleep (poll false).1 = false ∧
    releasedBeforeSleep (poll true).1 = false ∧
    (poll false).1 = [PollAction.leaseAcquire, PollAction.folderStatus,
      PollAction.statusCallback, PollAction.sleepPoll, PollAction.leaseRelease] :=
  ⟨rfl, rfl, rfl⟩

/-- C5 amended: during every pass of the poll handler exactly one lease is
    taken, at the start of the pass, and it is released at the very end of
    the pass, immediately after the sleep; the lease is therefore held
    across the poll sleep. -/
theorem c5_poll_lease_held_across_sleep (needsUpdate : Bool) :
    (poll needsUpdate).1.head? = some PollAction.leaseAcquire ∧
    (poll needsUpdate).1.getLast? = some PollAction.leaseRelease ∧
    (poll needsUpdate).1.dropLast.getLast? = some PollAction.sleepPoll ∧
    releasedBeforeSleep (poll needsUpdate).1 = false ∧
    (poll needsUpdate).1.count PollAction.leaseAcquire = 1 ∧
    (poll needsUpdate).1.count PollAction.leaseRelease = 1 ∧
    (poll needsUpdate).2 = "poll" := by
  cases needsUpdate <;> exact (by decide)

/-- C6: the claim states that every read and every write of the
    remote_g_metadata cache entry, including the write-back on a
    HIGHESTMODSEQ change, uses the same hierarchical key
    account_id/folder_name/remote_g_metadata.  The write-back in
    _update_g_metadata_cache instead joins account email_address, folder
    and suffix with underscores, so the entry it writes is never found at
    the key all the reads use: after the write-back, reading the
    hierarchical key still yields the stale map, and the updated map sits
    under the email-based key. -/
theorem c6_cache_key_mismatch :
    gMetadataKey 1 "INBOX" = "1/INBOX/remote_g_metadata" ∧
    writebackKey "user@example.com" "INBOX" = "user@example.com_INBOX_remote_g_metadata" ∧
    gMetadataKey 1 "INBOX" ≠ writebackKey "user@example.com" "INBOX" ∧
    (update_g_metadata_cache wAcct 3 wFrC6 "INBOX" [(9, ⟨9, 9⟩)] [] 20 wDb0
        [(gMetadataKey 1 "INBOX", [(9, ⟨9, 9⟩)])]).2.2 =
      [(writebackKey "user@example.com" "INBOX", []),
       (gMetadataKey 1 "INBOX", [(9, ⟨9, 9⟩)])] ∧
    getCache (update_g_metadata_cache wAcct 3 wFrC6 "INBOX" [(9, ⟨9, 9⟩)] [] 20 wDb0
        [(gMetadataKey 1 "INBOX", [(9, ⟨9, 9⟩)])]).2.2 (gMetadataKey 1 "INBOX") =
      some [(9, ⟨9, 9⟩)] :=
  ⟨rfl, rfl, by decide, rfl, rfl⟩

/-- C7: the claim states that stop_sync sends a shutdown to each targeted
    account owned by this host, nulls sync_host, releases the lock,
    removes the monitor, reports per-account results, and that processing
    one account never prevents the remaining targeted accounts from being
    processed.  In the code, an account with no registered monitor makes
    the whole loop return the single string OK sync stopped already
    immediately: with account 1 unmonitored and account 2 monitored and
    owned by this host, stop_sync with no email returns that single
    string, account 2 keeps its monitor and is never sent a shutdown. -/
theorem c7_stop_sync_early_return :
    stop_sync "host1" wSvc none = (StopReturn.single "OK sync stopped already", wSvc) ∧
    2 ∈ (stop_sync "host1" wSvc none).2.monitors ∧
    (stop_sync "host1" wSvc none).2.shutdowns = [] :=
  ⟨rfl, by decide, rfl⟩

/-- C8: whenever initial_sync completes successfully it returns poll when
    the folder is in the provider's pollable set and finish otherwise; the
    worker loop persists exactly the returned state, and the worker
    terminates exactly when the persisted state is finish. -/
theorem c8_initial_sync_return_state (blobOk : Nat → Bool) (acct : Account)
    (cr : Crispin) (folder : String) (db : DB) (cache : CacheMap)
    (pb : Bool) (r : SyncResult)
    (h : initial_sync blobOk acct cr folder db cache = .ok r) :
    r.state = (if folder ∈ cr.pollFolders then "poll" else "finish") ∧
    runStep (state_handlers blobOk acct cr folder db cache pb) "initial" =
      .ok (r.state, r.state == "finish") ∧
    ((r.state == "finish") = !decide (folder ∈ cr.pollFolders)) := by
  have hstate : r.state = (if folder ∈ cr.pollFolders then "poll" else "finish") := by
    unfold initial_sync at h
    cases hc : initial_sync_core blobOk acct cr folder db cache with
    | error e =>
      rw [hc] at h
      simp at h
    | ok v =>
      rw [hc] at h
      obtain ⟨db1, cache1, dl, flag⟩ := v
      simp only at h
      injection h with h2
      rw [← h2]
      by_cases hm : folder ∈ cr.pollFolders <;> simp [hm]
  refine ⟨hstate, ?_, ?_⟩
  · have hh : state_handlers blobOk acct cr folder db cache pb "initial" = .ok r.state := by
      unfold state_handlers
      rw [show (("initial" : String) == "initial") = true from rfl]
      simp only [if_true]
      rw [h]
      rfl
    unfold runStep
    rw [hh]
  · rw [hstate]
    by_cases hm : folder ∈ cr.pollFolders <;> simp [hm]

/-- Witness for C8 on the concrete Gmail INBOX scenario: the handler
    returns poll, the worker persists poll and does not terminate. -/
theorem c8_initial_sync_return_state_witness :
    (⟨wDb, [], "poll", [], true⟩ : SyncResult).state =
      (if ("INBOX" : String) ∈ wCr.pollFolders then "poll" else "finish") ∧
    runStep (state_handlers wBlob wAcct wCr "INBOX" wDb [] false) "initial" =
      .ok ((⟨wDb, [], "poll", [], true⟩ : SyncResult).state,
        (⟨wDb, [], "poll", [], true⟩ : SyncResult).state == "finish") ∧
    (((⟨wDb, [], "poll", [], true⟩ : SyncResult).state == "finish") =
      !decide (("INBOX" : String) ∈ wCr.pollFolders)) :=
  c8_initial_sync_return_state wBlob wAcct wCr "INBOX" wDb [] false
    ⟨wDb, [], "poll", [], true⟩ (by
      unfold initial_sync
      rw [initial_sync_core_idempotent wBlob wAcct wCr "INBOX" wDb [] wFrI wFrA rfl rfl
        (by decide) rfl rfl (by decide) (by decide) rfl (by decide) (by decide)]
      rfl)

/-- C9: new_token returns the token obtained from the first valid
    credential covering the scope whose refresh succeeds; every credential
    refreshed along the way that fails with an OAuth error is marked
    invalid (the second component lists the ids whose is_valid flag was
    set to False); and when no credential yields a token, the call raises
    the last non-OAuth exception if one occurred and OAuthError otherwise,
    never returning a token. -/
theorem c9_new_token_spec (now : Int) (creds : List AuthCreds) (scope : String) :
    (match (covering_creds creds scope).find? (fun c => c.refresh.isSuccess) with
     | some c => (new_token now creds scope).1 = .ok (mkGToken now c)
     | none =>
       (new_token now creds scope).1 =
         .error (match last_other_error (tried_creds creds scope) with
                 | some e => TokenErr.nonOAuth e
                 | none => TokenErr.oauthNoValid)) ∧
    (new_token now creds scope).2 =
      ((tried_creds creds scope).filter (fun c => c.refresh.isOauthError)).map
        (fun c => c.id) := by
  have h := newTokenGo_spec now scope (creds.filter (fun c => c.is_valid)) none []
  have h1 : (new_token now creds scope).1 =
      (match (covering_creds creds scope).find? (fun c => c.refresh.isSuccess) with
       | some c => Except.ok (mkGToken now c)
       | none =>
         Except.error (match last_other_error (tried_creds creds scope) with
                       | some e => TokenErr.nonOAuth e
                       | none => TokenErr.oauthNoValid)) := by
    unfold new_token covering_creds tried_creds last_other_error
    rw [h]
    rfl
  have h2 : (new_token now creds scope).2 =
      ((tried_creds creds scope).filter (fun c => c.refresh.isOauthError)).map
        (fun c => c.id) := by
    unfold new_token tried_creds covering_creds
    rw [h]
    dsimp only
    rw [List.nil_append]
  refine ⟨?_, h2⟩
  cases hf : (covering_creds creds scope).find? (fun c => c.refresh.isSuccess) with
  | some c =>
    rw [h1]
    simp [hf]
  | none =>
    rw [h1]
    simp [hf]

/-- Witness for C9 at a concrete credential list: the first covering valid
    credential fails with OAuth (and is marked invalid), the second fails
    with a non-OAuth error, the third succeeds and provides the token. -/
theorem c9_new_token_spec_witness :
    (new_token 0
      [⟨1, ["s"], true, .oauthError⟩, ⟨2, ["s"], true, .otherError 42⟩,
       ⟨3, ["s"], true, .success "tok3" 60⟩] "s").1 =
      .ok ⟨"tok3", 50, ["s"], 3⟩ ∧
    (new_token 0
      [⟨1, ["s"], true, .oauthError⟩, ⟨2, ["s"], true, .otherError 42⟩,
       ⟨3, ["s"], true, .success "tok3" 60⟩] "s").2 = [1] := by
  have h := c9_new_token_spec 0
    [⟨1, ["s"], true, .oauthError⟩, ⟨2, ["s"], true, .otherError 42⟩,
     ⟨3, ["s"], true, .success "tok3" 60⟩] "s"
  exact ⟨h.1, h.2⟩

/-- C10: GTokenManager get_token returns a previously cached token exactly
    when force_refresh is false and the current time is strictly before
    the cached expiration; in every other case it calls account.new_token
    and caches the returned token under each scope the token carries
    before returning; get_token returns the token value of _get_token. -/
theorem c10_get_token_spec (now : Int) (m : GTokenCacheMap) (acct : GmailAccountM)
    (scope : String) (force : Bool) :
    (match cacheLookupG m acct.id scope with
     | some g =>
       (force = false ∧ now < g.expiration →
         get_token_aux now m acct scope force = .ok (g, m)) ∧
       (¬(force = false ∧ now < g.expiration) →
         get_token_aux now m acct scope force =
           ((new_token now acct.creds scope).1.map
             (fun g2 => (g2, cache_token m acct.id g2))))
     | none =>
       get_token_aux now m acct scope force =
         ((new_token now acct.creds scope).1.map
           (fun g2 => (g2, cache_token m acct.id g2)))) ∧
    (∀ g : GToken, ∀ s ∈ g.scopes,
      cacheLookupG (cache_token m acct.id g) acct.id s = some g) ∧
    get_token now m acct scope force =
      (get_token_aux now m acct scope force).map (fun r => (r.1.value, r.2)) := by
  have hmap : ∀ x : Except TokenErr GToken,
      (match x with
       | Except.error e => Except.error e
       | Except.ok g2 => Except.ok (g2, cache_token m acct.id g2)) =
        x.map (fun g2 => (g2, cache_token m acct.id g2)) := by
    intro x
    cases x <;> rfl
  refine ⟨?_, ?_, rfl⟩
  · cases hl : cacheLookupG m acct.id scope with
    | some g =>
      constructor
      · rintro ⟨hf, hexp⟩
        subst hf
        unfold get_token_aux
        simp only [Bool.false_eq_true, if_false, hl, hexp, if_true]
      · intro hn
        cases hforce : force with
        | true =>
          unfold get_token_aux
          simp only [if_true]
          exact hmap _
        | false =>
          have hexp : ¬ now < g.expiration := fun hcon => hn ⟨hforce, hcon⟩
          subst hforce
          unfold get_token_aux
          simp only [Bool.false_eq_true, if_false, hl, hexp]
          exact hmap _
    | none =>
      cases hforce : force with
      | true =>
        unfold get_token_aux
        simp only [if_true]
        exact hmap _
      | false =>
        unfold get_token_aux
        simp only [Bool.false_eq_true, if_false, hl]
        exact hmap _
  · intro g s hs
    exact cacheLookupG_cache_token hs

/-- Witness for C10: with a cached unexpired token, no force_refresh and
    now strictly before the expiration, the cached token itself comes
    back with the cache untouched. -/
theorem c10_get_token_spec_witness :
    get_token_aux 3 [((1, "s"), wG0)] ⟨1, []⟩ "s" false =
      .ok (wG0, [((1, "s"), wG0)]) :=
  (c10_get_token_spec 3 [((1, "s"), wG0)] ⟨1, []⟩ "s" false).1.1 ⟨rfl, by decide⟩
